import Mathlib

/-!
Shallow embedding of the strategy-evaluation core of the
`hyperliquid_free_trading_bot` repository (files `algos/base_algorithm.py`,
`algos/rsi_algorithm.py`, `algos/rsi_1min_double_confirm_algorithm.py`,
`helpers/start_backtesting.py`, `paxg_panel.py`).

Prices and indicator values are embedded as rationals.  Pandas NaN values
(which arise from `0/0` in the RSI ratio and from `Series.shift`) are
embedded as `Option ℚ` with `none` playing the role of NaN; every pandas
scalar comparison involving NaN yields `False`, which the `o*` comparison
helpers below reproduce.  A float `+inf` ratio (positive gain, zero loss)
makes the pandas RSI evaluate to exactly `100`, which the embedding returns
directly.
-/

set_option maxRecDepth 100000

namespace TradingBot

/-- Python slice `l[a:b]` (numpy/pandas `iloc[a:b]`) on a list. -/
def pySlice (l : List ℚ) (a b : ℕ) : List ℚ :=
  (l.take b).drop a

/-- Python slice `l[a:b]` for option-valued (possibly-NaN) series. -/
def pySliceO (l : List (Option ℚ)) (a b : ℕ) : List (Option ℚ) :=
  (l.take b).drop a

/-- Pandas `iloc[-k:]`: the last `k` elements of a list. -/
def lastN (k : ℕ) (l : List ℚ) : List ℚ :=
  l.drop (l.length - k)

/-- Pandas `Series.min()` over a float series with no NaN: `none` on an
empty series (pandas NaN), otherwise the minimum. -/
def minList (l : List ℚ) : Option ℚ :=
  l.foldl (fun acc x =>
    match acc with
    | none => some x
    | some a => some (min a x)) none

/-- Pandas `Series.max()` with `skipna=True` over a possibly-NaN series:
NaN entries are ignored; an empty or all-NaN window gives NaN (`none`). -/
def maxListO (l : List (Option ℚ)) : Option ℚ :=
  l.foldl (fun acc x =>
    match acc, x with
    | none, x => x
    | acc, none => acc
    | some a, some b => some (max a b)) none

/-- Pandas scalar comparison `x >= c` where `x` may be NaN (False on NaN). -/
def oge (x : Option ℚ) (c : ℚ) : Bool :=
  match x with
  | none => false
  | some v => c ≤ v

/-- Pandas scalar comparison `x > c` where `x` may be NaN. -/
def ogt (x : Option ℚ) (c : ℚ) : Bool :=
  match x with
  | none => false
  | some v => c < v

/-- Pandas scalar comparison `x <= c` where `x` may be NaN. -/
def ole (x : Option ℚ) (c : ℚ) : Bool :=
  match x with
  | none => false
  | some v => v ≤ c

/-- Pandas scalar comparison `x < c` where `x` may be NaN. -/
def olt (x : Option ℚ) (c : ℚ) : Bool :=
  match x with
  | none => false
  | some v => v < c

/-- Pandas scalar comparison `x > y` where both sides may be NaN. -/
def ogtO (x y : Option ℚ) : Bool :=
  match x, y with
  | some a, some b => b < a
  | _, _ => false

/-- Pandas scalar comparison `c < x` (price below a possibly-NaN level). -/
def oltC (c : ℚ) (x : Option ℚ) : Bool :=
  match x with
  | none => false
  | some v => c < v

/-! ### Indicator engine: `calculate_rsi`
`delta = prices.diff()`; `gain = delta.where(delta > 0, 0)`;
`loss = -delta.where(delta < 0, 0)`.  The first delta is NaN, and
`NaN > 0` / `NaN < 0` are both `False`, so the first gain and loss are 0. -/

/-- The gain series: `delta.where(delta > 0, 0)` with the leading NaN
delta replaced by 0 (pandas `where` on a False condition). -/
def gains : List ℚ → List ℚ
  | [] => []
  | p :: ps => 0 :: List.zipWith (fun a b => if 0 < b - a then b - a else 0) (p :: ps) ps

/-- The loss series: `-delta.where(delta < 0, 0)`. -/
def losses : List ℚ → List ℚ
  | [] => []
  | p :: ps => 0 :: List.zipWith (fun a b => if b - a < 0 then -(b - a) else 0) (p :: ps) ps

/-- `Series.ewm(span=s, adjust=False).mean()` recursion with
`alpha = 2/(s+1)`: `y[0] = x[0]`, `y[t] = (1-alpha)*y[t-1] + alpha*x[t]`. -/
def ewmFrom (alpha : ℚ) (y : ℚ) : List ℚ → List ℚ
  | [] => []
  | x :: xs => let y2 := (1 - alpha) * y + alpha * x
               y2 :: ewmFrom alpha y2 xs

/-- Exponentially weighted mean of a list, `adjust=False`. -/
def ewm (alpha : ℚ) : List ℚ → List ℚ
  | [] => []
  | x :: xs => x :: ewmFrom alpha x xs

/-- One RSI sample from an averaged gain and loss, with float semantics:
`rs = g/l`; `l = 0 ∧ g = 0` gives NaN (`0/0`); `l = 0 ∧ g ≠ 0` gives
`rs = +inf` hence `rsi = 100 - 100/(1+inf) = 100`; otherwise
`rsi = 100 - 100/(1+g/l)`. -/
def rsiVal (g l : ℚ) : Option ℚ :=
  if l = 0 then (if g = 0 then none else some 100)
  else some (100 - 100 / (1 + g / l))

/-- `calculate_rsi` of `RSIAlgorithm` / `RSI1MinDoubleConfirmAlgorithm`
(both classes contain the identical function body). -/
def calculate_rsi (period : ℕ) (prices : List ℚ) : List (Option ℚ) :=
  let alpha : ℚ := 2 / (period + 1)
  List.zipWith rsiVal (ewm alpha (gains prices)) (ewm alpha (losses prices))

/-! ### Trade simulation engine: `BacktestEngine` -/

/-- The `exit_reason` strings of `BacktestEngine.simulate_trade`. -/
inductive ExitReason where
  | take_profit
  | stop_loss
  | market_close
deriving DecidableEq, Repr

/-- `BacktestEngine.calculate_exit_price`: the (take-profit, stop-loss)
price levels for an entry price. -/
def calculate_exit_price (tp sl entry_price : ℚ) (is_long : Bool) : ℚ × ℚ :=
  if is_long then (entry_price * (1 + tp), entry_price * (1 + sl))
  else (entry_price * (1 - tp), entry_price * (1 - sl))

/-- The `for i in range(entry_idx + 1, len(prices))` scan of
`simulate_trade`, together with its market-close fallthrough.  `i` is the
current scan position; the fallthrough closes at `prices.iloc[-1]`. -/
def findExit (tp sl c : ℚ) (prices : List ℚ) (entry_price tpP slP : ℚ)
    (is_long : Bool) (i : ℕ) : ℕ × ℚ × ExitReason :=
  if _h : i < prices.length then
    let current_price := prices.getD i 0
    if is_long then
      if tpP ≤ current_price then (i, tp - c * 2, ExitReason.take_profit)
      else if current_price ≤ slP then (i, sl - c * 2, ExitReason.stop_loss)
      else findExit tp sl c prices entry_price tpP slP is_long (i + 1)
    else
      if current_price ≤ tpP then (i, tp - c * 2, ExitReason.take_profit)
      else if slP ≤ current_price then (i, -sl - c * 2, ExitReason.stop_loss)
      else findExit tp sl c prices entry_price tpP slP is_long (i + 1)
  else
    let raw := (prices.getD (prices.length - 1) 0 - entry_price) / entry_price
    let raw2 := if is_long then raw else -raw
    (prices.length - 1, raw2 - c * 2, ExitReason.market_close)
termination_by prices.length - i

/-- `BacktestEngine.simulate_trade`: returns
`(exit_index, profit, exit_reason)` (profit as a fraction, not yet ×100). -/
def simulate_trade (tp sl c : ℚ) (prices : List ℚ) (entry_idx : ℕ)
    (is_long : Bool) : ℕ × ℚ × ExitReason :=
  let entry_price := prices.getD entry_idx 0
  let ep := calculate_exit_price tp sl entry_price is_long
  findExit tp sl c prices entry_price ep.1 ep.2 is_long (entry_idx + 1)

/-- A finished trade record as assembled by `BacktestEngine.backtest`.
Timestamps are carried as series indices (`data.index[i]` for a
monotonically increasing index); the entry/exit prices are recoverable as
`prices.getD entry_idx 0` / `prices.getD exit_idx 0`. -/
structure Trade where
  entry_idx : ℕ
  exit_idx : ℕ
  is_long : Bool
  profit_pct : ℚ
  exit_reason : ExitReason
deriving DecidableEq, Repr

/-- The scan's take-profit touch condition at index `i` for a trade
entered at `entry_idx`: `current_price >= tp_price` for a long,
`current_price <= tp_price` for a short. -/
def tpReached (tp sl : ℚ) (prices : List ℚ) (entry_idx i : ℕ)
    (is_long : Bool) : Bool :=
  let ep := calculate_exit_price tp sl (prices.getD entry_idx 0) is_long
  if is_long then decide (ep.1 ≤ prices.getD i 0)
  else decide (prices.getD i 0 ≤ ep.1)

/-- The scan's stop-loss touch condition at index `i`. -/
def slReached (tp sl : ℚ) (prices : List ℚ) (entry_idx i : ℕ)
    (is_long : Bool) : Bool :=
  let ep := calculate_exit_price tp sl (prices.getD entry_idx 0) is_long
  if is_long then decide (prices.getD i 0 ≤ ep.2)
  else decide (ep.2 ≤ prices.getD i 0)

/-- The exit index of `findExit` never exceeds `prices.length - 1`, and the
scan can only stop at or after its starting position while that position
is in range. -/
theorem findExit_bounds (tp sl c : ℚ) (prices : List ℚ)
    (entry_price tpP slP : ℚ) (is_long : Bool) :
    ∀ i, (findExit tp sl c prices entry_price tpP slP is_long i).1 ≤ prices.length - 1 ∧
      (i < prices.length →
        i ≤ (findExit tp sl c prices entry_price tpP slP is_long i).1) := by
  suffices H : ∀ n i, prices.length - i ≤ n →
      (findExit tp sl c prices entry_price tpP slP is_long i).1 ≤ prices.length - 1 ∧
      (i < prices.length →
        i ≤ (findExit tp sl c prices entry_price tpP slP is_long i).1) by
    intro i; exact H prices.length i (by omega)
  intro n
  induction n with
  | zero =>
    intro i hn
    have h : ¬ i < prices.length := by omega
    rw [findExit]
    rw [dif_neg h]
    exact ⟨le_refl _, fun hc => absurd hc h⟩
  | succ n ihn =>
    intro i hn
    by_cases h : i < prices.length
    · have hle : i ≤ prices.length - 1 := Nat.le_sub_one_of_lt h
      rcases ihn (i + 1) (by omega) with ⟨hA, hB⟩
      have hrec : (findExit tp sl c prices entry_price tpP slP is_long (i + 1)).1 ≤
            prices.length - 1 ∧
          i ≤ (findExit tp sl c prices entry_price tpP slP is_long (i + 1)).1 := by
        refine ⟨hA, ?_⟩
        by_cases h3 : i + 1 < prices.length
        · exact le_trans (by omega) (hB h3)
        · rw [findExit, dif_neg h3]
          dsimp only
          omega
      rw [findExit, dif_pos h]
      refine ⟨?_, fun _ => ?_⟩ <;>
        · dsimp only
          split <;> split <;> (try split) <;>
            first
              | exact hle
              | exact le_refl i
              | exact hrec.1
              | exact hrec.2
    · rw [findExit, dif_neg h]
      exact ⟨le_refl _, fun hc => absurd hc h⟩

/-- Exit-index bounds for `simulate_trade`: strictly after the entry
(when a later sample exists) and within the series. -/
theorem simulate_trade_exit_bounds (tp sl c : ℚ) (prices : List ℚ)
    (entry_idx : ℕ) (is_long : Bool) :
    (simulate_trade tp sl c prices entry_idx is_long).1 ≤ prices.length - 1 ∧
      (entry_idx + 1 < prices.length →
        entry_idx + 1 ≤ (simulate_trade tp sl c prices entry_idx is_long).1) := by
  unfold simulate_trade
  exact findExit_bounds tp sl c prices _ _ _ is_long (entry_idx + 1)

/-- The `while i < len(data)` loop of `BacktestEngine.backtest`, in the
state where no trade is open (`current_trade is None`).  When a signal
opens a trade at `i`, the loop's very next iteration (guard `i + 1 <
len(data)`) resolves it through `simulate_trade` and resumes at
`exit_idx + 1`; when the signal fires at the final sample the loop ends
with the trade still open and the trailing force-close block closes it at
the last price with reason `market_close`. -/
def btLoop (tp sl c : ℚ) (prices : List ℚ) (signals : List Int) (i : ℕ) :
    List Trade :=
  if _h : i < prices.length then
    let signal := signals.getD i 0
    if signal = 1 ∨ signal = -1 then
      let is_long : Bool := signal == 1
      if h2 : i + 1 < prices.length then
        let r := simulate_trade tp sl c prices i is_long
        ⟨i, r.1, is_long, r.2.1 * 100, r.2.2⟩ ::
          btLoop tp sl c prices signals (r.1 + 1)
      else
        let entry_price := prices.getD i 0
        let final_price := prices.getD (prices.length - 1) 0
        let raw := if is_long then (final_price - entry_price) / entry_price
                   else (entry_price - final_price) / entry_price
        [⟨i, prices.length - 1, is_long, (raw - c * 2) * 100,
          ExitReason.market_close⟩]
    else btLoop tp sl c prices signals (i + 1)
  else []
termination_by prices.length - i
decreasing_by
  · have := (simulate_trade_exit_bounds tp sl c prices i (signals.getD i 0 == 1)).2 h2
    omega
  · omega

/-- `BacktestEngine.backtest` (trade list): the scan starts at `i = 1`. -/
def backtest (tp sl c : ℚ) (prices : List ℚ) (signals : List Int) :
    List Trade :=
  btLoop tp sl c prices signals 1

/-! ### Metrics aggregator: `calculate_performance_metrics` -/

/-- The `profit_factor` value, which the code sets to `float('inf')` when
there is no losing trade (or the losing profits sum to zero). -/
inductive PFVal where
  | val (q : ℚ)
  | inf
deriving DecidableEq, Repr

/-- The metrics dictionary of `calculate_performance_metrics`.
`avg_trade_duration` is omitted: it is the only entry computed from
wall-clock timestamps, which the price-list embedding does not carry, and
no other entry depends on it. -/
structure Metrics where
  total_trades : ℕ
  win_rate : ℚ
  avg_profit : ℚ
  total_profit : ℚ
  max_drawdown : ℚ
  profit_factor : PFVal
  long_trades : ℕ
  short_trades : ℕ
  take_profit_exits : ℕ
  stop_loss_exits : ℕ
  market_close_exits : ℕ
deriving DecidableEq, Repr

/-- Pandas `Series.cumsum()`. -/
def cumsum (l : List ℚ) : List ℚ :=
  (l.scanl (· + ·) 0).tail

/-- Running maximum from a seed (helper for `cummax`). -/
def cummaxFrom (m : ℚ) : List ℚ → List ℚ
  | [] => []
  | x :: xs => let m2 := max m x
               m2 :: cummaxFrom m2 xs

/-- Pandas `Series.cummax()`. -/
def cummax : List ℚ → List ℚ
  | [] => []
  | x :: xs => x :: cummaxFrom x xs

/-- Pandas `Series.max()` over a float series with no NaN (`none` on an
empty series). -/
def maxListQ (l : List ℚ) : Option ℚ :=
  l.foldl (fun acc x =>
    match acc with
    | none => some x
    | some a => some (max a x)) none

/-- `BacktestEngine.calculate_performance_metrics`. -/
def calculate_performance_metrics (trades : List Trade) : Metrics :=
  if trades.length = 0 then
    { total_trades := 0, win_rate := 0, avg_profit := 0, total_profit := 0
      max_drawdown := 0, profit_factor := PFVal.val 0, long_trades := 0
      short_trades := 0, take_profit_exits := 0, stop_loss_exits := 0
      market_close_exits := 0 }
  else
    let profits := trades.map Trade.profit_pct
    let winning_trades := trades.filter (fun t => 0 < t.profit_pct)
    let losing_trades := trades.filter (fun t => t.profit_pct ≤ 0)
    let total_profit := profits.sum
    let cumulative_profits := cumsum profits
    let max_drawdown :=
      (maxListQ (List.zipWith (fun a b => a - b)
        (cummax cumulative_profits) cumulative_profits)).getD 0
    let losingSum := (losing_trades.map Trade.profit_pct).sum
    let profit_factor :=
      if 0 < losing_trades.length ∧ losingSum ≠ 0 then
        PFVal.val (|(winning_trades.map Trade.profit_pct).sum| / |losingSum|)
      else PFVal.inf
    { total_trades := trades.length
      win_rate := (winning_trades.length : ℚ) / trades.length * 100
      avg_profit := total_profit / trades.length
      total_profit := total_profit
      max_drawdown := max_drawdown
      profit_factor := profit_factor
      long_trades := (trades.filter (fun t => t.is_long)).length
      short_trades := (trades.filter (fun t => !t.is_long)).length
      take_profit_exits :=
        (trades.filter (fun t => t.exit_reason = ExitReason.take_profit)).length
      stop_loss_exits :=
        (trades.filter (fun t => t.exit_reason = ExitReason.stop_loss)).length
      market_close_exits :=
        (trades.filter (fun t => t.exit_reason = ExitReason.market_close)).length }

/-! ### Signal generator, threshold-crossing variant:
`RSIAlgorithm.generate_signals` -/

/-- The `rsi.shift(1)` sample at index `i`: NaN at index 0. -/
def prevAt (rsi : List (Option ℚ)) : ℕ → Option ℚ
  | 0 => none
  | j + 1 => rsi.getD j none

/-- `RSIAlgorithm.generate_signals`: buy on the upward cross of the
oversold threshold, sell on the downward cross of the overbought
threshold; the sell assignment is applied second and overwrites. -/
def rsi_generate_signals (period : ℕ) (oversold_threshold overbought_threshold : ℚ)
    (prices : List ℚ) : List Int :=
  let rsi := calculate_rsi period prices
  (List.range prices.length).map (fun i =>
    let cur := rsi.getD i none
    let prev := prevAt rsi i
    let buy := ogt cur oversold_threshold && ole prev oversold_threshold
    let sell := olt cur overbought_threshold && oge prev overbought_threshold
    if sell then -1 else if buy then 1 else 0)

/-! ### Signal generator, double-confirm variant:
`RSI1MinDoubleConfirmAlgorithm.generate_signals` -/

/-- The `rsi_topped` series of the batch double-confirm generator: at each
index `i ≥ 2` it is recomputed from scratch — true when the trailing
ten-sample window `rsi[max(0,i-10):i]` reached the overbought threshold, or
when the previous sample is a local peak above 60. -/
def rsi_topped (overbought_threshold : ℚ) (rsi : List (Option ℚ)) : List Bool :=
  (List.range rsi.length).map (fun i =>
    if 2 ≤ i then
      let recent_high := maxListO (pySliceO rsi (i - 10) i)
      if oge recent_high overbought_threshold then true
      else if ogtO (rsi.getD (i - 1) none) (rsi.getD (i - 2) none)
            && ogtO (rsi.getD (i - 1) none) (rsi.getD i none)
            && ogt (rsi.getD (i - 1) none) 60 then true
      else false
    else false)

/-- The `support_levels` series: for `i ≥ 10`, the minimum price over
`prices.iloc[i-10:i]` (the ten samples before, excluding, index `i`);
NaN before index 10. -/
def support_levels (prices : List ℚ) : List (Option ℚ) :=
  (List.range prices.length).map (fun i =>
    if 10 ≤ i then minList (pySlice prices (i - 10) i) else none)

/-- `RSI1MinDoubleConfirmAlgorithm.generate_signals`: the short loop runs
over `i ∈ [11, len)`; the cover assignment is applied afterwards and
overwrites any short signal at the same index. -/
def dc_generate_signals (period : ℕ) (oversold_threshold overbought_threshold : ℚ)
    (prices : List ℚ) : List Int :=
  let rsi := calculate_rsi period prices
  let topped := rsi_topped overbought_threshold rsi
  let support := support_levels prices
  (List.range prices.length).map (fun i =>
    let cur := rsi.getD i none
    let shrt := decide (11 ≤ i) && topped.getD i false
      && olt cur 50 && oge (rsi.getD (i - 1) none) 50
      && oltC (prices.getD i 0) (support.getD i none)
    let cover := ole cur oversold_threshold && ogt (prevAt rsi i) oversold_threshold
    if cover then 1 else if shrt then -1 else 0)

/-! ### Streaming double-confirm state machine: `PAXGPanel`
(`update_rsi_state`, `check_short_signal`, `check_cover_signal`) -/

/-- The mutable per-session state of the panel's double-confirm logic. -/
structure PanelState where
  last_rsi_values : List ℚ
  rsi_topped : Bool
  support_level : Option ℚ
deriving DecidableEq, Repr

/-- The state at session start (`last_rsi_values = []`,
`rsi_topped = False`, `support_level = None`). -/
def initPanelState : PanelState :=
  { last_rsi_values := [], rsi_topped := false, support_level := none }

/-- Negative Python indexing `l[-k]` on a nonempty float list. -/
def negIdx (l : List ℚ) (k : ℕ) : ℚ :=
  l.getD (l.length - k) 0

/-- `PAXGPanel.update_rsi_state`: append the new RSI to the rolling
buffer (popping the front beyond 10), possibly set — never clear — the
`rsi_topped` flag, and recompute the support level from the last ten lows
of the dataframe (including the current candle). -/
def update_rsi_state (overbought_threshold : ℚ) (s : PanelState)
    (current_rsi : ℚ) (dfLow : List ℚ) : PanelState :=
  let buf0 := s.last_rsi_values ++ [current_rsi]
  let buf := if 10 < buf0.length then buf0.drop 1 else buf0
  let topped :=
    if 3 ≤ buf.length then
      if oge (maxListQ (lastN 10 buf)) overbought_threshold then true
      else if decide (negIdx buf 3 < negIdx buf 2)
          && decide (negIdx buf 1 < negIdx buf 2)
          && decide ((60 : ℚ) < negIdx buf 2) then true
      else s.rsi_topped
    else s.rsi_topped
  let support :=
    if 10 ≤ dfLow.length then minList (lastN 10 dfLow) else s.support_level
  { last_rsi_values := buf, rsi_topped := topped, support_level := support }

/-- `PAXGPanel.check_short_signal`. -/
def check_short_signal (s : PanelState) (current_rsi current_price : ℚ) : Bool :=
  if !s.rsi_topped || s.support_level.isNone then false
  else
    let rsi_crossed_below_50 :=
      if 2 ≤ s.last_rsi_values.length then
        decide (negIdx s.last_rsi_values 1 < 50)
          && decide ((50 : ℚ) ≤ negIdx s.last_rsi_values 2)
      else decide (current_rsi < 50)
    let price_broke_support := oltC current_price s.support_level
    rsi_crossed_below_50 && price_broke_support

/-- `PAXGPanel.check_cover_signal`. -/
def check_cover_signal (oversold_threshold : ℚ) (s : PanelState)
    (current_rsi : ℚ) : Bool :=
  if 2 ≤ s.last_rsi_values.length then
    decide (current_rsi ≤ oversold_threshold)
      && decide (oversold_threshold < negIdx s.last_rsi_values 2)
  else decide (current_rsi ≤ oversold_threshold)

/-- Streaming driver, following the spec's live-mode interface: the state
machine is "driven incrementally, one new price point at a time".
`runPanel … n` is the state after feeding samples `0 … n-1`; at step `i`
the machine receives the oscillator value `rsis i` and a dataframe holding
the lows of candles `0 … i`. -/
def runPanel (overbought_threshold : ℚ) (lows : List ℚ) (rsis : ℕ → ℚ) :
    ℕ → PanelState
  | 0 => initPanelState
  | n + 1 => update_rsi_state overbought_threshold
      (runPanel overbought_threshold lows rsis n) (rsis n) (lows.take (n + 1))

/-! ### Parameter optimizer: `ParameterOptimizer.optimize` -/

/-- The `best_result` dictionary of `ParameterOptimizer.optimize`.
`total_profit` starts at `float('-inf')`, embedded as `none`. -/
structure OptBest (α : Type) where
  total_profit : Option ℚ
  parameters : Option α
  metrics : Option Metrics
deriving DecidableEq, Repr

/-- `x > best['total_profit']` where the stored best may be `-inf`. -/
def gtBest (x : ℚ) : Option ℚ → Bool
  | none => true
  | some b => b < x

/-- One iteration of the optimizer loop: the evaluated result is appended
to `self.results` unconditionally; `best_result` is replaced only when the
total profit strictly improves AND the trade count meets the minimum
threshold. -/
def optimizeStep {α : Type} (min_trades : ℕ) (evalComb : α → Metrics)
    (st : OptBest α × List (α × Metrics)) (params : α) :
    OptBest α × List (α × Metrics) :=
  let m := evalComb params
  let results := st.2 ++ [(params, m)]
  let best :=
    if gtBest m.total_profit st.1.total_profit && decide (min_trades ≤ m.total_trades)
    then { total_profit := some m.total_profit, parameters := some params
           metrics := some m }
    else st.1
  (best, results)

/-- `ParameterOptimizer.optimize`: fold the iteration over every parameter
combination, starting from the `-inf` / `None` best.  `evalComb` stands
for the per-combination pipeline (instantiate algorithm, run
`BacktestEngine.backtest`, aggregate metrics). -/
def optimize {α : Type} (combinations : List α) (evalComb : α → Metrics)
    (min_trades : ℕ) : OptBest α × List (α × Metrics) :=
  combinations.foldl (optimizeStep min_trades evalComb)
    ({ total_profit := none, parameters := none, metrics := none }, [])

/-- Spec §8 Scenario E fixture: a combination yielding 3 trades at +5%
total profit. -/
def scenarioMetricsA : Metrics :=
  { total_trades := 3, win_rate := 100, avg_profit := 5/3, total_profit := 5
    max_drawdown := 0, profit_factor := PFVal.inf, long_trades := 3
    short_trades := 0, take_profit_exits := 3, stop_loss_exits := 0
    market_close_exits := 0 }

/-- Spec §8 Scenario E fixture: a combination yielding 6 trades at +3%
total profit. -/
def scenarioMetricsB : Metrics :=
  { total_trades := 6, win_rate := 100, avg_profit := 1/2, total_profit := 3
    max_drawdown := 0, profit_factor := PFVal.inf, long_trades := 6
    short_trades := 0, take_profit_exits := 6, stop_loss_exits := 0
    market_close_exits := 0 }

/-- Scenario E evaluation map over two parameter combinations `0, 1`. -/
def scenarioEval (n : ℕ) : Metrics :=
  if n = 0 then scenarioMetricsA else scenarioMetricsB

/-! ## Theorems about the claims -/

/-- Indexing a map over `List.range`. -/
theorem getD_map_range {β : Type} (f : ℕ → β) (n i : ℕ) (d : β) (h : i < n) :
    ((List.range n).map f).getD i d = f i := by
  rw [List.getD_eq_getElem?_getD, List.getElem?_map, List.getElem?_range h]
  rfl

/-- Claim C1: on a short trade stopped out by the stop-loss bracket the
code books `profit = -stop_loss - 2*commission` — a POSITIVE profit for an
adverse move — instead of the spec's `stop_loss - 2*commission`.  Concrete
run: short entered at 100 with `stop_loss = -0.005`, `commission = 0.001`,
next price 101 (above the stop level 100.5): the recorded profit fraction
is `0.003`, not `-0.007`, and it is positive although the stop-loss fired. -/
theorem c1_short_stop_loss_profit_sign :
    simulate_trade (1/100) (-(5/1000)) (1/1000) [100, 101] 0 false
      = (1, 3/1000, ExitReason.stop_loss) ∧
    ((3 : ℚ)/1000 ≠ -(5/1000) - (1/1000) * 2) ∧
    (0 < (3 : ℚ)/1000) := by
  refine ⟨by with_unfolding_all decide, by norm_num, by norm_num⟩

/-- Claim C5 (counterexample): in the batch double-confirm generator the
`rsi_topped` series is recomputed per index from the trailing window and
LAPSES with no trade close: on this 14-sample series (RSI spikes to 100 at
index 1, then declines below 70) the flag is true at index 11 but false
again at index 12, although the generator performs no reset at all. -/
theorem c5_topped_lapses :
    (rsi_topped 70 (calculate_rsi 10
        [100, 200, 150, 100, 50, 45, 40, 38, 36, 34, 32, 30, 29, 28])).getD 11 false
      = true ∧
    (rsi_topped 70 (calculate_rsi 10
        [100, 200, 150, 100, 50, 45, 40, 38, 36, 34, 32, 30, 29, 28])).getD 12 false
      = false := by
  with_unfolding_all decide

/-- Claim C6 (counterexample): `calculate_rsi` is NOT undefined on all
indices below `period`: with `period = 14` on a strictly increasing series
of 16 points (length ≥ period + 2) the value at index 1 is already defined
(and equals 100), although `1 < 14`. -/
theorem c6_defined_before_period :
    (calculate_rsi 14
        [1, 2, 3, 4, 5, 6, 7, 8, 9, 10, 11, 12, 13, 14, 15, 16]).getD 1 none
      = some 100 ∧
    (1 < 14) ∧
    ([1, 2, 3, 4, 5, 6, 7, 8, 9, 10, 11, 12, 13, 14, 15, 16] : List ℚ).length
      = 16 ∧ 14 + 2 ≤ 16 := by
  refine ⟨by with_unfolding_all decide, by with_unfolding_all decide, by with_unfolding_all decide, by with_unfolding_all decide⟩

/-- Claim C2 (counterexample): feeding the same 14 samples one at a time
to the streaming machine (with `low = price` and the batch oscillator
values as the per-step RSI input) does NOT reproduce the batch run: after
sample 10 the streaming support level is `min` over the last ten samples
INCLUDING the current one (32) while the batch `support_levels[10]`
excludes it (34); and after sample 12 the streaming `rsi_topped` flag is
still true (it is sticky) while the batch flag at index 12 has lapsed. -/
theorem c2_stream_batch_disagree :
    ((runPanel 70 [100, 200, 150, 100, 50, 45, 40, 38, 36, 34, 32, 30, 29, 28]
        (fun i => (((calculate_rsi 10
          [100, 200, 150, 100, 50, 45, 40, 38, 36, 34, 32, 30, 29, 28]).getD i none).getD 50))
        11).support_level
      ≠ (support_levels
          [100, 200, 150, 100, 50, 45, 40, 38, 36, 34, 32, 30, 29, 28]).getD 10 none) ∧
    ((runPanel 70 [100, 200, 150, 100, 50, 45, 40, 38, 36, 34, 32, 30, 29, 28]
        (fun i => (((calculate_rsi 10
          [100, 200, 150, 100, 50, 45, 40, 38, 36, 34, 32, 30, 29, 28]).getD i none).getD 50))
        13).rsi_topped
      ≠ (rsi_topped 70 (calculate_rsi 10
          [100, 200, 150, 100, 50, 45, 40, 38, 36, 34, 32, 30, 29, 28])).getD 12 false) := by
  refine ⟨by with_unfolding_all decide, by with_unfolding_all decide⟩

/-- Claim C3 (counterexample): a signal that fires at the final sample
produces a zero-duration trade.  With the threshold-crossing generator
(period 14, thresholds 30/70) on `[100, 101, 102, 103, 104, 90]` the RSI
crosses below 70 exactly at the last index, the backtest opens a short
there, the loop ends, and the force-close block closes it at the same
index: `entry_idx = exit_idx = 5`, so `exit_time` is NOT strictly later
than `entry_time` for any monotone timestamp index. -/
theorem c3_zero_duration_trade :
    (backtest (1/100) (-(5/1000)) (1/1000) [100, 101, 102, 103, 104, 90]
        (rsi_generate_signals 14 30 70 [100, 101, 102, 103, 104, 90])).map
      (fun t => (t.entry_idx, t.exit_idx, t.exit_reason))
      = [(5, 5, ExitReason.market_close)] := by
  with_unfolding_all decide

/-- Claim C5 (amended part): in the STREAMING state machine the topped
flag is sticky: `update_rsi_state` can set it but never clears it, so once
true it persists until `close_position` resets it outside the update. -/
theorem c5_stream_topped_sticky (ob : ℚ) (s : PanelState)
    (current_rsi : ℚ) (dfLow : List ℚ) (h : s.rsi_topped = true) :
    (update_rsi_state ob s current_rsi dfLow).rsi_topped = true := by
  unfold update_rsi_state
  dsimp only
  split <;> split <;> (try split) <;> (try split) <;>
    first
      | rfl
      | exact h

/-- Witness for C5's amended theorem at a concrete topped state. -/
theorem c5_sticky_witness :
    (update_rsi_state 70 ⟨[50, 60, 55], true, none⟩ 40 [1, 2, 3]).rsi_topped
      = true :=
  c5_stream_topped_sticky 70 ⟨[50, 60, 55], true, none⟩ 40 [1, 2, 3] rfl

/-- Claim C2 (amended part): the two modes are off by one on support: when
the candle lows coincide with the prices, the streaming support level after
sample `i` (for `i ≥ 9`, `i + 1 < len`) equals the BATCH support level at
index `i + 1` — the streaming window includes the current sample, the batch
window excludes it. -/
theorem c2_stream_support_offset (ob : ℚ) (lows : List ℚ) (rsis : ℕ → ℚ)
    (i : ℕ) (h9 : 9 ≤ i) (hlen : i + 1 < lows.length) :
    (runPanel ob lows rsis (i + 1)).support_level
      = (support_levels lows).getD (i + 1) none := by
  have hlen2 : (lows.take (i + 1)).length = i + 1 := by
    rw [List.length_take]; omega
  rw [runPanel]
  unfold update_rsi_state
  dsimp only
  rw [if_pos (show 10 ≤ (lows.take (i + 1)).length by omega)]
  unfold support_levels
  rw [getD_map_range _ _ _ _ hlen]
  rw [if_pos (show 10 ≤ i + 1 by omega)]
  unfold lastN pySlice
  rw [hlen2]

/-- Witness for C2's amended theorem on an 11-point series. -/
theorem c2_support_offset_witness :
    (runPanel 70 [0, 1, 2, 3, 4, 5, 6, 7, 8, 9, 10]
        (fun _ => 50) 10).support_level
      = (support_levels [0, 1, 2, 3, 4, 5, 6, 7, 8, 9, 10]).getD 10 none :=
  c2_stream_support_offset 70 [0, 1, 2, 3, 4, 5, 6, 7, 8, 9, 10]
    (fun _ => 50) 9 (by norm_num) (by norm_num)

/-- Claim C9: on a non-empty trade set with zero losing trades (every
`profit_pct` strictly positive) and at least one winning trade,
`calculate_performance_metrics` returns the explicit infinite profit
factor (`float('inf')` in the code), not a division error. -/
theorem c9_profit_factor_no_losers (trades : List Trade)
    (hne : ¬ trades.length = 0)
    (hnl : (trades.filter (fun t => t.profit_pct ≤ 0)).length = 0)
    (_hw : 1 ≤ (trades.filter (fun t => 0 < t.profit_pct)).length) :
    (calculate_performance_metrics trades).profit_factor = PFVal.inf := by
  unfold calculate_performance_metrics
  rw [if_neg hne]
  dsimp only
  rw [if_neg]
  rintro ⟨h1, -⟩
  omega

/-- Witness for C9 at a one-trade set. -/
theorem c9_witness :
    (calculate_performance_metrics
        [⟨0, 1, true, 5, ExitReason.take_profit⟩]).profit_factor = PFVal.inf :=
  c9_profit_factor_no_losers [⟨0, 1, true, 5, ExitReason.take_profit⟩]
    (by with_unfolding_all decide) (by with_unfolding_all decide)
    (by with_unfolding_all decide)

/-- Elements of `ewmFrom` are nonnegative when the seed, the inputs and
the smoothing weight are. -/
theorem ewmFrom_nonneg (alpha : ℚ) (ha0 : 0 ≤ alpha) (ha1 : alpha ≤ 1) :
    ∀ (l : List ℚ) (y : ℚ), 0 ≤ y → (∀ x ∈ l, 0 ≤ x) →
      ∀ z ∈ ewmFrom alpha y l, 0 ≤ z := by
  intro l
  induction l with
  | nil =>
    intro y _ _ z hz
    simp [ewmFrom] at hz
  | cons x xs ih =>
    intro y hy hl z hz
    simp only [ewmFrom, List.mem_cons] at hz
    have hx : 0 ≤ x := hl x (List.mem_cons_self _ _)
    have hy2 : 0 ≤ (1 - alpha) * y + alpha * x := by
      have h1 := mul_nonneg (by linarith : (0:ℚ) ≤ 1 - alpha) hy
      have h2 := mul_nonneg ha0 hx
      linarith
    rcases hz with rfl | hz
    · exact hy2
    · exact ih _ hy2 (fun a ha => hl a (List.mem_cons_of_mem _ ha)) z hz

/-- Elements of `ewm` are nonnegative when the inputs and the weight are. -/
theorem ewm_nonneg (alpha : ℚ) (ha0 : 0 ≤ alpha) (ha1 : alpha ≤ 1)
    (l : List ℚ) (hl : ∀ x ∈ l, 0 ≤ x) : ∀ z ∈ ewm alpha l, 0 ≤ z := by
  cases l with
  | nil => intro z hz; simp [ewm] at hz
  | cons x xs =>
    intro z hz
    simp only [ewm, List.mem_cons] at hz
    have hx : 0 ≤ x := hl x (List.mem_cons_self _ _)
    rcases hz with rfl | hz
    · exact hx
    · exact ewmFrom_nonneg alpha ha0 ha1 xs x hx
        (fun a ha => hl a (List.mem_cons_of_mem _ ha)) z hz

/-- Pointwise bound through `List.zipWith`. -/
theorem zipWith_nonneg {f : ℚ → ℚ → ℚ} (hf : ∀ a b, 0 ≤ f a b) :
    ∀ (l1 l2 : List ℚ), ∀ x ∈ List.zipWith f l1 l2, 0 ≤ x := by
  intro l1
  induction l1 with
  | nil => intro l2 x hx; simp at hx
  | cons a as ih =>
    intro l2 x hx
    cases l2 with
    | nil => simp at hx
    | cons b bs =>
      simp only [List.zipWith_cons_cons, List.mem_cons] at hx
      rcases hx with rfl | hx
      · exact hf a b
      · exact ih bs x hx

/-- Every element of the gain series is nonnegative. -/
theorem gains_nonneg (prices : List ℚ) : ∀ x ∈ gains prices, 0 ≤ x := by
  cases prices with
  | nil => intro x hx; simp [gains] at hx
  | cons p ps =>
    intro x hx
    simp only [gains, List.mem_cons] at hx
    rcases hx with rfl | hx
    · exact le_refl 0
    · refine zipWith_nonneg ?_ _ _ x hx
      intro a b
      dsimp only
      split
      · linarith
      · exact le_refl 0

/-- Every element of the loss series is nonnegative. -/
theorem losses_nonneg (prices : List ℚ) : ∀ x ∈ losses prices, 0 ≤ x := by
  cases prices with
  | nil => intro x hx; simp [losses] at hx
  | cons p ps =>
    intro x hx
    simp only [losses, List.mem_cons] at hx
    rcases hx with rfl | hx
    · exact le_refl 0
    · refine zipWith_nonneg ?_ _ _ x hx
      intro a b
      dsimp only
      split
      · linarith
      · exact le_refl 0

/-- A defined RSI sample computed from nonnegative averaged gain and loss
lies in `[0, 100]`. -/
theorem rsiVal_bound (g l : ℚ) (hg : 0 ≤ g) (hl : 0 ≤ l) (v : ℚ)
    (hv : rsiVal g l = some v) : 0 ≤ v ∧ v ≤ 100 := by
  by_cases h1 : l = 0
  · by_cases h2 : g = 0
    · rw [rsiVal, if_pos h1, if_pos h2] at hv
      exact absurd hv (by simp)
    · rw [rsiVal, if_pos h1, if_neg h2] at hv
      have h : (100:ℚ) = v := Option.some.inj hv
      constructor <;> (rw [← h]; try norm_num)
  · rw [rsiVal, if_neg h1] at hv
    have h : 100 - 100 / (1 + g / l) = v := Option.some.inj hv
    have hl2 : 0 < l := lt_of_le_of_ne hl (Ne.symm h1)
    have hgl : 0 ≤ g / l := div_nonneg hg hl2.le
    have hpos : (0:ℚ) < 1 + g / l := by linarith
    have h1p : (1:ℚ) ≤ 1 + g / l := by linarith
    have hdle : (100:ℚ) / (1 + g / l) ≤ 100 := div_le_self (by norm_num) h1p
    have hdpos : (0:ℚ) < 100 / (1 + g / l) := div_pos (by norm_num) hpos
    constructor <;> (rw [← h]; try linarith)

/-- Bound for every defined sample of `zipWith rsiVal`. -/
theorem zipWith_rsiVal_bound :
    ∀ (gs ls : List ℚ), (∀ g ∈ gs, 0 ≤ g) → (∀ l ∈ ls, 0 ≤ l) →
      ∀ o ∈ List.zipWith rsiVal gs ls, ∀ v, o = some v → 0 ≤ v ∧ v ≤ 100 := by
  intro gs
  induction gs with
  | nil => intro ls _ _ o ho; simp at ho
  | cons g gs ih =>
    intro ls hg hl o ho v hv
    cases ls with
    | nil => simp at ho
    | cons l ls =>
      simp only [List.zipWith_cons_cons, List.mem_cons] at ho
      rcases ho with rfl | ho
      · exact rsiVal_bound g l (hg g (List.mem_cons_self _ _))
          (hl l (List.mem_cons_self _ _)) v hv
      · exact ih ls (fun a ha => hg a (List.mem_cons_of_mem _ ha))
          (fun a ha => hl a (List.mem_cons_of_mem _ ha)) o ho v hv

/-- `ewmFrom` preserves length. -/
theorem ewmFrom_length (alpha : ℚ) :
    ∀ (l : List ℚ) (y : ℚ), (ewmFrom alpha y l).length = l.length := by
  intro l
  induction l with
  | nil => intro y; rfl
  | cons x xs ih => intro y; simp [ewmFrom, ih]

/-- `ewm` preserves length. -/
theorem ewm_length (alpha : ℚ) (l : List ℚ) :
    (ewm alpha l).length = l.length := by
  cases l with
  | nil => rfl
  | cons x xs => simp [ewm, ewmFrom_length]

/-- The gain series is aligned 1:1 with the prices. -/
theorem gains_length (prices : List ℚ) :
    (gains prices).length = prices.length := by
  cases prices with
  | nil => rfl
  | cons p ps => simp [gains, List.length_zipWith]

/-- The loss series is aligned 1:1 with the prices. -/
theorem losses_length (prices : List ℚ) :
    (losses prices).length = prices.length := by
  cases prices with
  | nil => rfl
  | cons p ps => simp [losses, List.length_zipWith]

/-- The RSI sample at index 0 is always NaN: the first delta is NaN, both
smoothed averages start at 0, and `0/0` is NaN. -/
theorem calculate_rsi_head (period : ℕ) (prices : List ℚ) :
    (calculate_rsi period prices).getD 0 none = none := by
  cases prices with
  | nil => rfl
  | cons p ps => simp [calculate_rsi, gains, losses, ewm, rsiVal]

/-- Claim C6 (amended): for every positive period and every price series,
`calculate_rsi` is aligned 1:1 with the prices, NaN at index 0, and every
DEFINED sample lies in `[0, 100]`.  (The counterexample shows the
"NaN for all indices below the period" half of the original claim false:
definedness starts with the first nonzero delta, independent of period.) -/
theorem c6_rsi_aligned_bounded (period : ℕ) (prices : List ℚ)
    (hp : 1 ≤ period) :
    (calculate_rsi period prices).length = prices.length ∧
    (calculate_rsi period prices).getD 0 none = none ∧
    ∀ o ∈ calculate_rsi period prices, ∀ v, o = some v → 0 ≤ v ∧ v ≤ 100 := by
  refine ⟨?_, calculate_rsi_head period prices, ?_⟩
  · unfold calculate_rsi
    rw [List.length_zipWith, ewm_length, ewm_length, gains_length,
      losses_length, min_self]
  · intro o ho v hv
    have hper : (1:ℚ) ≤ (period:ℚ) := by exact_mod_cast hp
    have ha0 : (0:ℚ) ≤ 2 / ((period:ℚ) + 1) := by positivity
    have ha1 : 2 / ((period:ℚ) + 1) ≤ 1 := by
      rw [div_le_one (by positivity)]
      linarith
    unfold calculate_rsi at ho
    exact zipWith_rsiVal_bound _ _
      (ewm_nonneg _ ha0 ha1 _ (gains_nonneg prices))
      (ewm_nonneg _ ha0 ha1 _ (losses_nonneg prices)) o ho v hv

/-- Witness for C6's amended theorem. -/
theorem c6_bound_witness :
    (calculate_rsi 14 [(1:ℚ), 2]).getD 0 none = none :=
  (c6_rsi_aligned_bounded 14 [1, 2] (by norm_num)).2.1

/-- Claim C10: in the batch double-confirm generator, at an index where
BOTH the short-entry condition (topped, RSI crossing below 50, price below
support, `i ≥ 11`) and the cover condition (RSI crossing into the oversold
band) hold, the emitted signal is `+1`: the cover assignment is applied
after the short loop and overwrites the `-1`. -/
theorem c10_cover_overrides_short (period : ℕ) (os ob : ℚ)
    (prices : List ℚ) (i : ℕ) (hi : i < prices.length)
    (_hshort : (decide (11 ≤ i)
        && (rsi_topped ob (calculate_rsi period prices)).getD i false
        && olt ((calculate_rsi period prices).getD i none) 50
        && oge ((calculate_rsi period prices).getD (i - 1) none) 50
        && oltC (prices.getD i 0)
            ((support_levels prices).getD i none)) = true)
    (hcover : (ole ((calculate_rsi period prices).getD i none) os
        && ogt (prevAt (calculate_rsi period prices) i) os) = true) :
    (dc_generate_signals period os ob prices).getD i 0 = 1 := by
  unfold dc_generate_signals
  rw [getD_map_range _ _ _ _ hi]
  dsimp only
  rw [if_pos hcover]

/-- Witness for C10: on a 14-sample ramp-and-crash series with
period 14, oversold 30, overbought 70, index 13 satisfies the short-entry
AND the cover condition simultaneously, and the emitted signal is `+1`. -/
theorem c10_witness :
    (dc_generate_signals 14 30 70
        [100, 101, 102, 103, 104, 105, 106, 107, 108, 109, 110, 111, 112, 92]).getD 13 0
      = 1 :=
  c10_cover_overrides_short 14 30 70
    [100, 101, 102, 103, 104, 105, 106, 107, 108, 109, 110, 111, 112, 92] 13
    (by with_unfolding_all decide) (by with_unfolding_all decide)
    (by with_unfolding_all decide)

/-- Claim C8: the threshold-crossing generator emits `+1` exactly at an
upward cross of the oversold threshold (previous sample ≤ threshold,
current > threshold), `-1` exactly at a downward cross of the overbought
threshold (previous ≥, current <), and `0` everywhere else, consulting
only the immediately preceding oscillator sample (NaN comparisons are
false, so no signal fires at index 0 or beside an undefined sample).
Stated for `oversold < overbought`, which every configured parameter set
satisfies. -/
theorem c8_threshold_crossing (period : ℕ) (os ob : ℚ) (prices : List ℚ)
    (hosob : os < ob) (i : ℕ) (hi : i < prices.length) :
    ((rsi_generate_signals period os ob prices).getD i 0 = 1 ↔
      (∃ v w, (calculate_rsi period prices).getD i none = some v ∧
        prevAt (calculate_rsi period prices) i = some w ∧ w ≤ os ∧ os < v)) ∧
    ((rsi_generate_signals period os ob prices).getD i 0 = -1 ↔
      (∃ v w, (calculate_rsi period prices).getD i none = some v ∧
        prevAt (calculate_rsi period prices) i = some w ∧ ob ≤ w ∧ v < ob)) ∧
    ((rsi_generate_signals period os ob prices).getD i 0 = 0 ↔
      (¬ ∃ v w, (calculate_rsi period prices).getD i none = some v ∧
        prevAt (calculate_rsi period prices) i = some w ∧ w ≤ os ∧ os < v) ∧
      (¬ ∃ v w, (calculate_rsi period prices).getD i none = some v ∧
        prevAt (calculate_rsi period prices) i = some w ∧ ob ≤ w ∧ v < ob)) := by
  unfold rsi_generate_signals
  rw [getD_map_range _ _ _ _ hi]
  dsimp only
  rcases hc : (calculate_rsi period prices).getD i none with _ | v
  · simp [olt, ole, ogt, oge]
  · rcases hp : prevAt (calculate_rsi period prices) i with _ | w
    · simp [olt, ole, ogt, oge]
    · simp only [olt, ole, ogt, oge, Bool.and_eq_true, decide_eq_true_eq]
      split_ifs with hB hA
      · refine ⟨⟨fun h => by norm_num at h, ?_⟩,
          ⟨fun _ => ⟨v, w, rfl, rfl, hB.2, hB.1⟩, fun _ => rfl⟩,
          ⟨fun h => by norm_num at h, ?_⟩⟩
        · rintro ⟨v0, w0, hv0, hw0, h4, h3⟩
          obtain rfl := Option.some.inj hv0
          obtain rfl := Option.some.inj hw0
          exact absurd (le_trans hB.2 h4) (not_le.mpr hosob)
        · rintro ⟨-, hns⟩
          exact absurd ⟨v, w, rfl, rfl, hB.2, hB.1⟩ hns
      · refine ⟨⟨fun _ => ⟨v, w, rfl, rfl, hA.2, hA.1⟩, fun _ => rfl⟩,
          ⟨fun h => by norm_num at h, ?_⟩,
          ⟨fun h => by norm_num at h, ?_⟩⟩
        · rintro ⟨v0, w0, hv0, hw0, h2, h1⟩
          obtain rfl := Option.some.inj hv0
          obtain rfl := Option.some.inj hw0
          exact absurd ⟨h1, h2⟩ hB
        · rintro ⟨hnb, -⟩
          exact absurd ⟨v, w, rfl, rfl, hA.2, hA.1⟩ hnb
      · refine ⟨⟨fun h => by norm_num at h, ?_⟩,
          ⟨fun h => by norm_num at h, ?_⟩,
          ⟨fun _ => ⟨?_, ?_⟩, fun _ => rfl⟩⟩
        · rintro ⟨v0, w0, hv0, hw0, h4, h3⟩
          obtain rfl := Option.some.inj hv0
          obtain rfl := Option.some.inj hw0
          exact absurd ⟨h3, h4⟩ hA
        · rintro ⟨v0, w0, hv0, hw0, h2, h1⟩
          obtain rfl := Option.some.inj hv0
          obtain rfl := Option.some.inj hw0
          exact absurd ⟨h1, h2⟩ hB
        · rintro ⟨v0, w0, hv0, hw0, h4, h3⟩
          obtain rfl := Option.some.inj hv0
          obtain rfl := Option.some.inj hw0
          exact hA ⟨h3, h4⟩
        · rintro ⟨v0, w0, hv0, hw0, h2, h1⟩
          obtain rfl := Option.some.inj hv0
          obtain rfl := Option.some.inj hw0
          exact hB ⟨h1, h2⟩

/-- Witness for C8: on the six-point ramp-and-drop series the downward
cross of 70 happens exactly at index 5 and the theorem yields the crossing
pair. -/
theorem c8_witness :
    ∃ v w, (calculate_rsi 14 [(100:ℚ), 101, 102, 103, 104, 90]).getD 5 none
        = some v ∧
      prevAt (calculate_rsi 14 [(100:ℚ), 101, 102, 103, 104, 90]) 5 = some w ∧
      (70:ℚ) ≤ w ∧ v < 70 :=
  ((c8_threshold_crossing 14 30 70 [100, 101, 102, 103, 104, 90]
      (by norm_num) 5 (by norm_num)).2.1).mp (by with_unfolding_all decide)

/-- The optimizer's results list records every evaluated combination, in
order, regardless of the minimum-trade threshold. -/
theorem optimize_results {α : Type} (minT : ℕ) (f : α → Metrics) :
    ∀ (combos : List α) (st : OptBest α × List (α × Metrics)),
      (combos.foldl (optimizeStep minT f) st).2
        = st.2 ++ combos.map (fun p => (p, f p)) := by
  intro combos
  induction combos with
  | nil => intro st; simp
  | cons x xs ih =>
    intro st
    rw [List.foldl_cons, ih]
    simp [optimizeStep]

/-- Fold invariant of the optimizer's `best_result`: when a parameter set
is selected it has been seen, meets the trade threshold, carries its own
metrics and profit, and its profit dominates every seen qualifying
combination; when none is selected the stored profit is still `-inf` and
no seen combination qualifies. -/
theorem optimize_best_inv {α : Type} (minT : ℕ) (f : α → Metrics) :
    ∀ (combos : List α) (st : OptBest α × List (α × Metrics)) (seen : List α),
      (∀ p, st.1.parameters = some p → p ∈ seen ∧ minT ≤ (f p).total_trades ∧
        st.1.total_profit = some (f p).total_profit ∧ st.1.metrics = some (f p) ∧
        ∀ q ∈ seen, minT ≤ (f q).total_trades →
          (f q).total_profit ≤ (f p).total_profit) →
      (st.1.parameters = none → st.1.total_profit = none ∧
        ∀ q ∈ seen, ¬ minT ≤ (f q).total_trades) →
      (∀ p, (combos.foldl (optimizeStep minT f) st).1.parameters = some p →
        p ∈ seen ++ combos ∧ minT ≤ (f p).total_trades ∧
        (combos.foldl (optimizeStep minT f) st).1.total_profit
          = some (f p).total_profit ∧
        (combos.foldl (optimizeStep minT f) st).1.metrics = some (f p) ∧
        ∀ q ∈ seen ++ combos, minT ≤ (f q).total_trades →
          (f q).total_profit ≤ (f p).total_profit) ∧
      ((combos.foldl (optimizeStep minT f) st).1.parameters = none →
        ∀ q ∈ seen ++ combos, ¬ minT ≤ (f q).total_trades) := by
  intro combos
  induction combos with
  | nil =>
    intro st seen hsome hnone
    simp only [List.foldl_nil, List.append_nil]
    exact ⟨hsome, fun hp => (hnone hp).2⟩
  | cons x xs ih =>
    intro st seen hsome hnone
    rw [List.foldl_cons]
    have hre : seen ++ x :: xs = (seen ++ [x]) ++ xs := by simp
    rw [hre]
    by_cases hupd : (gtBest (f x).total_profit st.1.total_profit
        && decide (minT ≤ (f x).total_trades)) = true
    · have hq : minT ≤ (f x).total_trades := by
        have := (Bool.and_eq_true _ _).mp hupd
        exact of_decide_eq_true this.2
      have hgt := ((Bool.and_eq_true _ _).mp hupd).1
      have hst : optimizeStep minT f st x
          = ({ total_profit := some (f x).total_profit, parameters := some x
               metrics := some (f x) }, st.2 ++ [(x, f x)]) := by
        unfold optimizeStep
        dsimp only
        rw [if_pos hupd]
      rw [hst]
      apply ih
      · intro p hp
        have hpx : x = p := by
          simpa using hp
        subst hpx
        refine ⟨by simp, hq, rfl, rfl, ?_⟩
        intro q hqmem hqq
        rcases List.mem_append.mp hqmem with hqs | hqx
        · rcases hpar : st.1.parameters with _ | p0
          · exact absurd hqq (((hnone hpar).2) q hqs)
          · rcases hsome p0 hpar with ⟨-, -, hprof, -, hmax⟩
            have h1 : (f q).total_profit ≤ (f p0).total_profit := hmax q hqs hqq
            have h2 : (f p0).total_profit < (f x).total_profit := by
              rw [hprof] at hgt
              exact of_decide_eq_true hgt
            linarith
        · have : q = x := by simpa using hqx
          subst this
          exact le_refl _
      · intro hp
        simp at hp
    · have hst : optimizeStep minT f st x = (st.1, st.2 ++ [(x, f x)]) := by
        unfold optimizeStep
        dsimp only
        rw [if_neg (by simpa using hupd)]
      rw [hst]
      apply ih
      · intro p hp
        rcases hsome p hp with ⟨hmem, hq, hprof, hmet, hmax⟩
        refine ⟨List.mem_append_left _ hmem, hq, hprof, hmet, ?_⟩
        intro q hqmem hqq
        rcases List.mem_append.mp hqmem with hqs | hqx
        · exact hmax q hqs hqq
        · have : q = x := by simpa using hqx
          subst this
          have hgtf : gtBest (f q).total_profit st.1.total_profit = false := by
            rcases hb : gtBest (f q).total_profit st.1.total_profit with _ | _
            · rfl
            · exfalso
              apply hupd
              rw [hb]
              simp [hqq]
          rw [hprof] at hgtf
          unfold gtBest at hgtf
          simpa using hgtf
      · intro hp
        rcases (hnone hp) with ⟨hprofnone, hseen⟩
        refine ⟨hprofnone, ?_⟩
        intro q hqmem
        rcases List.mem_append.mp hqmem with hqs | hqx
        · exact hseen q hqs
        · have : q = x := by simpa using hqx
          subst this
          intro hqq
          apply hupd
          rw [hprofnone]
          simp [gtBest, hqq]

/-- Claim C7: the optimizer's result records every evaluated combination;
the selected parameters (when any) belong to the evaluated set, meet the
minimum-trade threshold, carry their own metrics, and dominate the total
profit of every qualifying combination; and when no combination meets the
threshold the result carries no parameters (not an error). -/
theorem c7_optimizer_selection {α : Type} (combos : List α)
    (f : α → Metrics) (minT : ℕ) :
    ((optimize combos f minT).2 = combos.map (fun p => (p, f p))) ∧
    (∀ p, (optimize combos f minT).1.parameters = some p →
      p ∈ combos ∧ minT ≤ (f p).total_trades ∧
      (optimize combos f minT).1.total_profit = some (f p).total_profit ∧
      (optimize combos f minT).1.metrics = some (f p) ∧
      ∀ q ∈ combos, minT ≤ (f q).total_trades →
        (f q).total_profit ≤ (f p).total_profit) ∧
    ((∀ q ∈ combos, (f q).total_trades < minT) →
      (optimize combos f minT).1.parameters = none) := by
  have hinv := optimize_best_inv minT f combos
    ({ total_profit := none, parameters := none, metrics := none }, [])
    [] (by intro p hp; simp at hp) (by intro hp; exact ⟨rfl, by simp⟩)
  rcases hinv with ⟨hsome, hnone⟩
  refine ⟨?_, ?_, ?_⟩
  · unfold optimize
    rw [optimize_results]
    simp
  · intro p hp
    rcases hsome p hp with ⟨hmem, hq, hprof, hmet, hmax⟩
    exact ⟨by simpa using hmem, hq, hprof, hmet,
      fun q hqm hqq => hmax q (by simpa using hqm) hqq⟩
  · intro hbelow
    rcases hpar : (optimize combos f minT).1.parameters with _ | p
    · rfl
    · rcases hsome p hpar with ⟨hmem, hq, -⟩
      have := hbelow p (by simpa using hmem)
      omega

/-- Witness for C7, Scenario E of the spec: of two combinations — 3 trades
at +5% and 6 trades at +3% — with minimum-trade threshold 5, the second is
selected despite the lower profit, and it dominates every qualifying
combination. -/
theorem c7_witness :
    (1 : ℕ) ∈ ([0, 1] : List ℕ) ∧ 5 ≤ (scenarioEval 1).total_trades ∧
    (optimize [0, 1] scenarioEval 5).1.total_profit
      = some (scenarioEval 1).total_profit ∧
    (optimize [0, 1] scenarioEval 5).1.metrics = some (scenarioEval 1) ∧
    ∀ q ∈ ([0, 1] : List ℕ), 5 ≤ (scenarioEval q).total_trades →
      (scenarioEval q).total_profit ≤ (scenarioEval 1).total_profit :=
  (c7_optimizer_selection [0, 1] scenarioEval 5).2.1 1
    (by with_unfolding_all decide)

/-- A scan that ends with reason `take_profit` books exactly
`take_profit - 2*commission`, whatever the prices were. -/
theorem findExit_take_profit (tp sl c : ℚ) (prices : List ℚ)
    (entry_price tpP slP : ℚ) (is_long : Bool) :
    ∀ i, (findExit tp sl c prices entry_price tpP slP is_long i).2.2
        = ExitReason.take_profit →
      (findExit tp sl c prices entry_price tpP slP is_long i).2.1
        = tp - c * 2 := by
  suffices H : ∀ n i, prices.length - i ≤ n →
      (findExit tp sl c prices entry_price tpP slP is_long i).2.2
        = ExitReason.take_profit →
      (findExit tp sl c prices entry_price tpP slP is_long i).2.1
        = tp - c * 2 by
    intro i; exact H prices.length i (by omega)
  intro n
  induction n with
  | zero =>
    intro i hn
    rw [findExit, dif_neg (show ¬ i < prices.length by omega)]
    dsimp only
    intro h
    simp at h
  | succ n ihn =>
    intro i hn
    by_cases hi : i < prices.length
    · rw [findExit, dif_pos hi]
      dsimp only
      split
      · split
        · intro _; rfl
        · split
          · intro h; simp at h
          · exact ihn (i + 1) (by omega)
      · split
        · intro _; rfl
        · split
          · intro h; simp at h
          · exact ihn (i + 1) (by omega)
    · rw [findExit, dif_neg hi]
      dsimp only
      intro h
      simp at h

/-- When `j` is the first scanned index at which the take-profit level is
touched — no earlier scanned index touched either level — the scan stops
at `j` with reason `take_profit`, regardless of whether the stop-loss
level is also touched at `j`: the take-profit branch is tested first. -/
theorem findExit_first_tp (tp sl c : ℚ) (prices : List ℚ)
    (entry_price tpP slP : ℚ) (is_long : Bool) :
    ∀ j i, i ≤ j → j < prices.length →
      (∀ k, i ≤ k → k < j →
        (if is_long then
          ¬ tpP ≤ prices.getD k 0 ∧ ¬ prices.getD k 0 ≤ slP
        else
          ¬ prices.getD k 0 ≤ tpP ∧ ¬ slP ≤ prices.getD k 0)) →
      (if is_long then tpP ≤ prices.getD j 0 else prices.getD j 0 ≤ tpP) →
      findExit tp sl c prices entry_price tpP slP is_long i
        = (j, tp - c * 2, ExitReason.take_profit) := by
  intro j
  suffices H : ∀ n i, j - i ≤ n → i ≤ j → j < prices.length →
      (∀ k, i ≤ k → k < j →
        (if is_long then
          ¬ tpP ≤ prices.getD k 0 ∧ ¬ prices.getD k 0 ≤ slP
        else
          ¬ prices.getD k 0 ≤ tpP ∧ ¬ slP ≤ prices.getD k 0)) →
      (if is_long then tpP ≤ prices.getD j 0 else prices.getD j 0 ≤ tpP) →
      findExit tp sl c prices entry_price tpP slP is_long i
        = (j, tp - c * 2, ExitReason.take_profit) by
    intro i; exact H j i (by omega)
  intro n
  induction n with
  | zero =>
    intro i hn hij hj hmiss hhit
    have hij2 : i = j := by omega
    subst hij2
    rw [findExit, dif_pos hj]
    dsimp only
    cases is_long with
    | true =>
      simp only [if_true] at hhit ⊢
      rw [if_pos hhit]
    | false =>
      simp only [Bool.false_eq_true, if_false] at hhit ⊢
      rw [if_pos hhit]
  | succ n ihn =>
    intro i hn hij hj hmiss hhit
    by_cases hij2 : i = j
    · subst hij2
      rw [findExit, dif_pos hj]
      dsimp only
      cases is_long with
      | true =>
        simp only [if_true] at hhit ⊢
        rw [if_pos hhit]
      | false =>
        simp only [Bool.false_eq_true, if_false] at hhit ⊢
        rw [if_pos hhit]
    · have hilt : i < j := by omega
      have hmi := hmiss i (le_refl i) hilt
      rw [findExit, dif_pos (by omega : i < prices.length)]
      dsimp only
      cases is_long with
      | true =>
        simp only [if_true] at hmi ⊢
        rw [if_neg hmi.1, if_neg hmi.2]
        exact ihn (i + 1) (by omega) (by omega) hj
          (fun k hk1 hk2 => hmiss k (by omega) hk2) hhit
      | false =>
        simp only [Bool.false_eq_true, if_false] at hmi ⊢
        rw [if_neg hmi.1, if_neg hmi.2]
        exact ihn (i + 1) (by omega) (by omega) hj
          (fun k hk1 hk2 => hmiss k (by omega) hk2) hhit

/-- Every trade the backtest loop emits is either assembled verbatim from
a `simulate_trade` result or is the trailing force-close with reason
`market_close`. -/
theorem btLoop_mem_shape (tp sl c : ℚ) (prices : List ℚ)
    (signals : List Int) :
    ∀ n i, prices.length - i ≤ n →
      ∀ t ∈ btLoop tp sl c prices signals i,
        (∃ e b, t = ⟨e, (simulate_trade tp sl c prices e b).1, b,
          (simulate_trade tp sl c prices e b).2.1 * 100,
          (simulate_trade tp sl c prices e b).2.2⟩) ∨
        t.exit_reason = ExitReason.market_close := by
  intro n
  induction n with
  | zero =>
    intro i hn t ht
    rw [btLoop, dif_neg (show ¬ i < prices.length by omega)] at ht
    simp at ht
  | succ n ihn =>
    intro i hn t ht
    by_cases hi : i < prices.length
    · rw [btLoop, dif_pos hi] at ht
      dsimp only at ht
      by_cases hsig : signals.getD i 0 = 1 ∨ signals.getD i 0 = -1
      · rw [if_pos hsig] at ht
        by_cases h2 : i + 1 < prices.length
        · rw [dif_pos h2] at ht
          rcases List.mem_cons.mp ht with rfl | ht2
          · exact Or.inl ⟨i, signals.getD i 0 == 1, rfl⟩
          · have hbd := (simulate_trade_exit_bounds tp sl c prices i
              (signals.getD i 0 == 1)).2 h2
            exact ihn ((simulate_trade tp sl c prices i
              (signals.getD i 0 == 1)).1 + 1) (by omega) t ht2
        · rw [dif_neg h2] at ht
          rcases List.mem_cons.mp ht with rfl | ht2
          · exact Or.inr rfl
          · simp at ht2
      · rw [if_neg hsig] at ht
        exact ihn (i + 1) (by omega) t ht
    · rw [btLoop, dif_neg hi] at ht
      simp at ht

/-- Claim C4: (1) every trade the backtest closes with reason
`take_profit` books `profit_pct = (take_profit - 2*commission) * 100`
exactly, independent of the intermediate prices and of the price at the
exit sample; (2) the same holds for a raw `simulate_trade` result; (3) at
the first scanned sample where a bracket level is reached, if BOTH levels
are reached the take-profit branch decides the exit (it is checked
first). -/
theorem c4_take_profit_exact_priority (tp sl c : ℚ) (prices : List ℚ)
    (signals : List Int) :
    (∀ t ∈ backtest tp sl c prices signals,
      t.exit_reason = ExitReason.take_profit →
        t.profit_pct = (tp - c * 2) * 100) ∧
    (∀ entry_idx is_long,
      (simulate_trade tp sl c prices entry_idx is_long).2.2
          = ExitReason.take_profit →
        (simulate_trade tp sl c prices entry_idx is_long).2.1 = tp - c * 2) ∧
    (∀ entry_idx i is_long, entry_idx < i → i < prices.length →
      (∀ j, entry_idx < j → j < i →
        tpReached tp sl prices entry_idx j is_long = false ∧
        slReached tp sl prices entry_idx j is_long = false) →
      tpReached tp sl prices entry_idx i is_long = true →
      slReached tp sl prices entry_idx i is_long = true →
      simulate_trade tp sl c prices entry_idx is_long
        = (i, tp - c * 2, ExitReason.take_profit)) := by
  have hpart2 : ∀ entry_idx is_long,
      (simulate_trade tp sl c prices entry_idx is_long).2.2
          = ExitReason.take_profit →
      (simulate_trade tp sl c prices entry_idx is_long).2.1 = tp - c * 2 := by
    intro entry_idx is_long h
    unfold simulate_trade at h ⊢
    exact findExit_take_profit tp sl c prices _ _ _ is_long (entry_idx + 1) h
  refine ⟨?_, hpart2, ?_⟩
  · intro t ht hreason
    rcases btLoop_mem_shape tp sl c prices signals prices.length 1 (by omega)
        t ht with ⟨e, b, rfl⟩ | hmc
    · have := hpart2 e b hreason
      dsimp only
      rw [this]
    · rw [hreason] at hmc
      exact absurd hmc (by simp)
  · intro entry_idx i is_long hlt hi hmiss htp hsl
    unfold simulate_trade
    apply findExit_first_tp tp sl c prices _ _ _ is_long i (entry_idx + 1)
      (by omega) hi
    · intro k hk1 hk2
      have hm := hmiss k (by omega) hk2
      rcases hm with ⟨hm1, hm2⟩
      unfold tpReached at hm1
      unfold slReached at hm2
      dsimp only at hm1 hm2
      cases is_long with
      | true =>
        simp only [if_true] at hm1 hm2 ⊢
        exact ⟨of_decide_eq_false hm1, of_decide_eq_false hm2⟩
      | false =>
        simp only [Bool.false_eq_true, if_false] at hm1 hm2 ⊢
        exact ⟨of_decide_eq_false hm1, of_decide_eq_false hm2⟩
    · unfold tpReached at htp
      dsimp only at htp
      cases is_long with
      | true =>
        simp only [if_true] at htp ⊢
        exact of_decide_eq_true htp
      | false =>
        simp only [Bool.false_eq_true, if_false] at htp ⊢
        exact of_decide_eq_true htp

/-- Witness for C4's priority part: with degenerate brackets
`tp = sl = 0` (both levels equal the entry price) both conditions hold at
the first scanned sample and the exit is `take_profit` with profit
`0 - 0*2`. -/
theorem c4_both_levels_witness :
    simulate_trade 0 0 0 [100, 100] 0 true
      = (1, 0 - 0 * 2, ExitReason.take_profit) :=
  (c4_take_profit_exact_priority 0 0 0 [100, 100] []).2.2 0 1 true
    (by omega) (by with_unfolding_all decide)
    (by intro j hj1 hj2; omega)
    (by with_unfolding_all decide) (by with_unfolding_all decide)

/-- Ordering invariant of the backtest loop started at index `i`: every
emitted trade enters at or after `i`, exits no earlier than it enters and
no later than the final sample, a zero-duration trade can only sit at the
final sample, and consecutive trades never overlap. -/
theorem btLoop_ordered (tp sl c : ℚ) (prices : List ℚ) (signals : List Int) :
    ∀ n i, prices.length - i ≤ n →
      (∀ t ∈ btLoop tp sl c prices signals i,
        i ≤ t.entry_idx ∧ t.entry_idx ≤ t.exit_idx ∧
        t.exit_idx ≤ prices.length - 1 ∧
        (t.exit_idx = t.entry_idx → t.entry_idx = prices.length - 1)) ∧
      List.Chain' (fun a b => a.exit_idx < b.entry_idx)
        (btLoop tp sl c prices signals i) := by
  intro n
  induction n with
  | zero =>
    intro i hn
    rw [btLoop, dif_neg (show ¬ i < prices.length by omega)]
    exact ⟨by simp, List.chain'_nil⟩
  | succ n ihn =>
    intro i hn
    by_cases hi : i < prices.length
    · rw [btLoop, dif_pos hi]
      dsimp only
      by_cases hsig : signals.getD i 0 = 1 ∨ signals.getD i 0 = -1
      · rw [if_pos hsig]
        by_cases h2 : i + 1 < prices.length
        · rw [dif_pos h2]
          have hbd := simulate_trade_exit_bounds tp sl c prices i
            (signals.getD i 0 == 1)
          have hge := hbd.2 h2
          have hle := hbd.1
          set e := (simulate_trade tp sl c prices i
            (signals.getD i 0 == 1)).1 with he
          rcases ihn (e + 1) (by omega) with ⟨ihmem, ihchain⟩
          constructor
          · intro t ht
            rcases List.mem_cons.mp ht with rfl | ht2
            · refine ⟨le_refl _, (by omega : i ≤ e),
                (by omega : e ≤ prices.length - 1), fun h => ?_⟩
              have h2e : e = i := h
              show i = prices.length - 1
              omega
            · rcases ihmem t ht2 with ⟨h1, h2', h3, h4⟩
              exact ⟨by omega, h2', h3, h4⟩
          · rw [List.chain'_cons']
            refine ⟨?_, ihchain⟩
            intro b hb
            have hbm := List.mem_of_mem_head? hb
            have hb1 := (ihmem b hbm).1
            show e < b.entry_idx
            omega
        · rw [dif_neg h2]
          have hieq : i = prices.length - 1 := by omega
          constructor
          · intro t ht
            rcases List.mem_cons.mp ht with rfl | ht2
            · exact ⟨le_refl _, (by omega : i ≤ prices.length - 1),
                le_refl _, fun _ => hieq⟩
            · simp at ht2
          · exact List.chain'_singleton _
      · rw [if_neg hsig]
        rcases ihn (i + 1) (by omega) with ⟨ihmem, ihchain⟩
        refine ⟨fun t ht => ?_, ihchain⟩
        rcases ihmem t ht with ⟨h1, h2', h3, h4⟩
        exact ⟨by omega, h2', h3, h4⟩
    · rw [btLoop, dif_neg hi]
      exact ⟨by simp, List.chain'_nil⟩

/-- Claim C3 (amended): every trade list produced by the backtest is
non-overlapping and ordered — consecutive trades satisfy
`exit_idx(i) < entry_idx(i+1)`, so with any strictly monotone timestamp
index `entry_time(i+1) > exit_time(i)` — and every trade has
`entry_idx ≤ exit_idx ≤ len - 1`, where equality `exit_idx = entry_idx`
can only happen for a trade opened at the final sample (which the
counterexample shows reachable): strict exit-after-entry fails exactly
there. -/
theorem c3_trades_ordered (tp sl c : ℚ) (prices : List ℚ)
    (signals : List Int) :
    List.Chain' (fun a b => a.exit_idx < b.entry_idx)
      (backtest tp sl c prices signals) ∧
    ∀ t ∈ backtest tp sl c prices signals,
      t.entry_idx ≤ t.exit_idx ∧ t.exit_idx ≤ prices.length - 1 ∧
      (t.exit_idx = t.entry_idx → t.entry_idx = prices.length - 1) := by
  have h := btLoop_ordered tp sl c prices signals prices.length 1 (by omega)
  exact ⟨h.2, fun t ht =>
    ⟨(h.1 t ht).2.1, (h.1 t ht).2.2.1, (h.1 t ht).2.2.2⟩⟩

end TradingBot
